import Mathlib

/-!
Verification of the FIFO capital-gains calculator in `TaxCalculator.py`.

The core of the program is `calculate_gains` (FIFO lot matching over a
date-sorted transaction list) and `summarize_gains` (bucketed aggregation).
Both are shallowly embedded below: Python floats become exact rationals,
`datetime` values become integer day numbers (whole-day differences), the
mutable `lots` list and the `realized` list become explicit state threaded
through folds, and Python's built-in `round` becomes decimal
round-half-to-even on rationals.
-/

namespace BitcoinTax

/-- Source constant `SHORT_TERM_TAX_RATE = 0.24`. -/
def SHORT_TERM_TAX_RATE : ℚ := 24/100

/-- Source constant `LONG_TERM_TAX_RATE = 0.15`. -/
def LONG_TERM_TAX_RATE : ℚ := 15/100

/-- Source constant `MAX_CAPITAL_LOSS_DEDUCTION = 3000.00`. -/
def MAX_CAPITAL_LOSS_DEDUCTION : ℚ := 3000

/-- Source constant `TRANSACTION_BUY = 'BUY'`. -/
def TRANSACTION_BUY : String := "BUY"

/-- Source constant `TRANSACTION_SELL = 'SALE'`. -/
def TRANSACTION_SELL : String := "SALE"

/-- A transaction record as built by `load_transactions`: fields `date`,
`type`, `amount`, `price`, `fees`.  Dates are integer day numbers (Python
`datetime` subtraction of date-level data yields whole days); the float
fields are exact rationals. -/
structure Tx where
  date : Int
  type : String
  amount : ℚ
  price : ℚ
  fees : ℚ
deriving DecidableEq

/-- An open lot, as pushed by the Buy branch of `calculate_gains`
(lines 65-70): `{'amount': .., 'price': .., 'date': .., 'fees': ..}`.
`amount` is the remaining amount: the sell loop decrements it in place. -/
structure Lot where
  amount : ℚ
  price : ℚ
  date : Int
  fees : ℚ
deriving DecidableEq

/-- A realization record as appended to `realized` (lines 94-105). -/
structure Realization where
  sell_date : Int
  buy_date : Int
  amount : ℚ
  cost_basis : ℚ
  proceeds : ℚ
  gain : ℚ
  holding_days : Int
  term : String
  tax_rate : ℚ
  tax_owed : ℚ
deriving DecidableEq

/-- Round-half-to-even to an integer: the semantics of Python's built-in
`round`, applied to the exact rational value. -/
def roundHalfEven (x : ℚ) : ℤ :=
  if x - ⌊x⌋ < 1/2 then ⌊x⌋
  else if 1/2 < x - ⌊x⌋ then ⌊x⌋ + 1
  else if ⌊x⌋ % 2 = 0 then ⌊x⌋ else ⌊x⌋ + 1

/-- Python `round(x, n)`: round to `n` decimal places, half to even. -/
def roundq (n : ℕ) (x : ℚ) : ℚ := (roundHalfEven (x * 10 ^ n) : ℚ) / 10 ^ n

/-- The body of one iteration of the sell loop (lines 79-105): the
realization record built when the sell with remaining need `amount_to_sell`
draws on the front lot `lot`.  `txAmount` is `tx['amount']` (the sell's
original amount, used in the sell-fee pro-ration on line 86); the lot-side
fee pro-ration (line 87) divides by `lot.amount`, the lot's *current*
remaining amount. -/
def mkReal (sell_price : ℚ) (sell_date : Int) (sell_fees txAmount amount_to_sell : ℚ)
    (lot : Lot) : Realization :=
  let amount_from_lot := min amount_to_sell lot.amount
  let cost_basis := amount_from_lot * lot.price
  let proceeds := amount_from_lot * sell_price
  let gain := proceeds - cost_basis
    - sell_fees * (amount_from_lot / txAmount)
    - lot.fees * (amount_from_lot / lot.amount)
  let holding_period_days := sell_date - lot.date
  let long_term := 365 < holding_period_days
  let tax_rate := if long_term then LONG_TERM_TAX_RATE else SHORT_TERM_TAX_RATE
  let tax_owed := if 0 < gain then gain * tax_rate else 0
  { sell_date := sell_date
    buy_date := lot.date
    amount := roundq 8 amount_from_lot
    cost_basis := roundq 2 cost_basis
    proceeds := roundq 2 proceeds
    gain := roundq 2 gain
    holding_days := holding_period_days
    term := if long_term then "Long" else "Short"
    tax_rate := tax_rate
    tax_owed := roundq 2 tax_owed }

/-- The `while amount_to_sell > 0 and lots:` loop of `calculate_gains`
(lines 77-110) for one Sell transaction.  Returns the realizations this Sell
appends and the lot queue it leaves.

In the branch where the front lot is not exhausted
(`lot.amount - amount_from_lot ≠ 0`, line 108's test failing), the source
decrements `amount_to_sell -= amount_from_lot` and re-tests the guard; since
`amount_from_lot = min amount_to_sell lot.amount` differs from `lot.amount`
it must equal `amount_to_sell`, so the guard `amount_to_sell > 0` fails and
the loop exits, which this branch returns directly. -/
def sellLoop (sell_price : ℚ) (sell_date : Int) (sell_fees txAmount : ℚ) :
    ℚ → List Lot → List Realization × List Lot
  | _, [] => ([], [])
  | amount_to_sell, lot :: rest =>
    if 0 < amount_to_sell then
      let amount_from_lot := min amount_to_sell lot.amount
      let r := mkReal sell_price sell_date sell_fees txAmount amount_to_sell lot
      if lot.amount - amount_from_lot = 0 then
        let p := sellLoop sell_price sell_date sell_fees txAmount
          (amount_to_sell - amount_from_lot) rest
        (r :: p.1, p.2)
      else
        ([r], { lot with amount := lot.amount - amount_from_lot } :: rest)
    else ([], lot :: rest)

/-- One iteration of the `for tx in transactions:` loop of `calculate_gains`
(lines 63-110), acting on the pair of locals `(lots, realized)`.  A kind
other than `'BUY'`/`'SALE'` matches no branch and leaves the state as is. -/
def stepTx (s : List Lot × List Realization) (tx : Tx) : List Lot × List Realization :=
  if tx.type = TRANSACTION_BUY then
    (s.1 ++ [{ amount := tx.amount, price := tx.price, date := tx.date, fees := tx.fees }], s.2)
  else if tx.type = TRANSACTION_SELL then
    let p := sellLoop tx.price tx.date tx.fees tx.amount tx.amount s.1
    (p.2, s.2 ++ p.1)
  else s

/-- `calculate_gains(transactions)`: fold the transaction loop from empty
`lots`/`realized` and return `realized`. -/
def calculate_gains (transactions : List Tx) : List Realization :=
  (transactions.foldl stepTx ([], [])).2

/-- The lot queue (local `lots`) left after the `calculate_gains` loop. -/
def lotsAfter (transactions : List Tx) : List Lot :=
  (transactions.foldl stepTx ([], [])).1

/-- Total remaining quantity over a lot queue. -/
def lotTotal (ls : List Lot) : ℚ := (ls.map (fun l => l.amount)).sum

/-- One iteration of the `for g in gains:` loop of `summarize_gains`
(lines 119-133), on the accumulator
`(st_gain, st_loss, lt_gain, lt_loss, total_tax)`: gains (`gain >= 0`) and
losses are bucketed by `term`, and `tax_owed` is always added. -/
def summarizeStep (acc : ℚ × ℚ × ℚ × ℚ × ℚ) (g : Realization) : ℚ × ℚ × ℚ × ℚ × ℚ :=
  let st_gain := acc.1
  let st_loss := acc.2.1
  let lt_gain := acc.2.2.1
  let lt_loss := acc.2.2.2.1
  let total_tax := acc.2.2.2.2
  if g.term = "Short" then
    if 0 ≤ g.gain then (st_gain + g.gain, st_loss, lt_gain, lt_loss, total_tax + g.tax_owed)
    else (st_gain, st_loss + g.gain, lt_gain, lt_loss, total_tax + g.tax_owed)
  else
    if 0 ≤ g.gain then (st_gain, st_loss, lt_gain + g.gain, lt_loss, total_tax + g.tax_owed)
    else (st_gain, st_loss, lt_gain, lt_loss + g.gain, total_tax + g.tax_owed)

/-- The aggregate figures computed by `summarize_gains` (lines 115-146). -/
structure Summary where
  st_gain : ℚ
  st_loss : ℚ
  lt_gain : ℚ
  lt_loss : ℚ
  total_tax : ℚ
  net_gain : ℚ
  net_loss : ℚ
  deductible_loss : ℚ
deriving DecidableEq

/-- `summarize_gains(gains)`: fold the realization loop from zeroed
accumulators, then `net_gain = st_gain + lt_gain + st_loss + lt_loss`,
`net_loss = st_loss + lt_loss`, and (line 137)
`deductible_loss = min(abs(net_loss), MAX_CAPITAL_LOSS_DEDUCTION) if net_gain < 0 else 0.0`. -/
def summarize_gains (gains : List Realization) : Summary :=
  let acc := gains.foldl summarizeStep (0, 0, 0, 0, 0)
  let st_gain := acc.1
  let st_loss := acc.2.1
  let lt_gain := acc.2.2.1
  let lt_loss := acc.2.2.2.1
  let total_tax := acc.2.2.2.2
  let net_gain := st_gain + lt_gain + st_loss + lt_loss
  let net_loss := st_loss + lt_loss
  let deductible_loss :=
    if net_gain < 0 then min |net_loss| MAX_CAPITAL_LOSS_DEDUCTION else 0
  { st_gain := st_gain, st_loss := st_loss, lt_gain := lt_gain, lt_loss := lt_loss,
    total_tax := total_tax, net_gain := net_gain, net_loss := net_loss,
    deductible_loss := deductible_loss }

/-- The full store of the `calculate_gains` interpreter: the parameter
`transactions` together with the two locals.  The loop body of the source
assigns only to `lots` (append, in-place decrement of the front element, pop
from the front) and `realized` (append); `transactions` and the fields of
`tx` are only ever read, and the lots are dict literals freshly created on
each Buy, so no assignment aliases the input records. -/
structure GainsState where
  transactions : List Tx
  lots : List Lot
  realized : List Realization
deriving DecidableEq

/-- One iteration of the `calculate_gains` loop on the full store:
`transactions` is not assigned. -/
def calcStep (s : GainsState) (tx : Tx) : GainsState :=
  if tx.type = TRANSACTION_BUY then
    { s with lots := s.lots ++
        [{ amount := tx.amount, price := tx.price, date := tx.date, fees := tx.fees }] }
  else if tx.type = TRANSACTION_SELL then
    let p := sellLoop tx.price tx.date tx.fees tx.amount tx.amount s.lots
    { s with lots := p.2, realized := s.realized ++ p.1 }
  else s

/-- `calculate_gains` run on the full store, starting from its input and
empty locals. -/
def calculate_gains_full (transactions : List Tx) : GainsState :=
  transactions.foldl calcStep { transactions := transactions, lots := [], realized := [] }

/-- One iteration of the `summarize_gains` loop on the full store
`(gains, accumulators)`: the loop body (lines 119-133) only reads `g` and
assigns the five scalar accumulators, never `gains`. -/
def summStep (s : List Realization × (ℚ × ℚ × ℚ × ℚ × ℚ)) (g : Realization) :
    List Realization × (ℚ × ℚ × ℚ × ℚ × ℚ) :=
  (s.1, summarizeStep s.2 g)

/-- The `summarize_gains` loop run on the full store. -/
def summarize_run (gains : List Realization) : List Realization × (ℚ × ℚ × ℚ × ℚ × ℚ) :=
  gains.foldl summStep (gains, (0, 0, 0, 0, 0))

/-- `x` is an integer multiple of `10 ^ (-8)`, the granularity of the
8-decimal rounding applied to the emitted `amount` field (satoshi-level
quantization for Bitcoin amounts). -/
def isMult8 (x : ℚ) : Prop := ∃ k : ℤ, x = (k : ℚ) / 10 ^ 8

/-! ### Case lemmas for the embedded operations -/

theorem sellLoop_nil (sp : ℚ) (sd : Int) (sf ta need : ℚ) :
    sellLoop sp sd sf ta need [] = ([], []) := rfl

theorem sellLoop_cons_nonpos (sp : ℚ) (sd : Int) (sf ta need : ℚ) (lot : Lot)
    (rest : List Lot) (h : ¬ 0 < need) :
    sellLoop sp sd sf ta need (lot :: rest) = ([], lot :: rest) := by
  simp [sellLoop, h]

theorem sellLoop_cons_pop (sp : ℚ) (sd : Int) (sf ta need : ℚ) (lot : Lot)
    (rest : List Lot) (h : 0 < need) (hz : lot.amount - min need lot.amount = 0) :
    sellLoop sp sd sf ta need (lot :: rest) =
      (mkReal sp sd sf ta need lot ::
          (sellLoop sp sd sf ta (need - min need lot.amount) rest).1,
        (sellLoop sp sd sf ta (need - min need lot.amount) rest).2) := by
  simp [sellLoop, h, hz]

theorem sellLoop_cons_keep (sp : ℚ) (sd : Int) (sf ta need : ℚ) (lot : Lot)
    (rest : List Lot) (h : 0 < need) (hz : ¬ lot.amount - min need lot.amount = 0) :
    sellLoop sp sd sf ta need (lot :: rest) =
      ([mkReal sp sd sf ta need lot],
        { lot with amount := lot.amount - min need lot.amount } :: rest) := by
  simp [sellLoop, h, hz]

theorem min_eq_left_of_sub_ne {need a : ℚ} (hz : a - min need a ≠ 0) :
    min need a = need := by
  rcases min_choice need a with h | h
  · exact h
  · exact absurd (by rw [h]; ring) hz

theorem mkReal_sell_date (sp : ℚ) (sd : Int) (sf ta need : ℚ) (lot : Lot) :
    (mkReal sp sd sf ta need lot).sell_date = sd := rfl

theorem mkReal_buy_date (sp : ℚ) (sd : Int) (sf ta need : ℚ) (lot : Lot) :
    (mkReal sp sd sf ta need lot).buy_date = lot.date := rfl

theorem mkReal_amount (sp : ℚ) (sd : Int) (sf ta need : ℚ) (lot : Lot) :
    (mkReal sp sd sf ta need lot).amount = roundq 8 (min need lot.amount) := rfl

theorem mkReal_holding_days (sp : ℚ) (sd : Int) (sf ta need : ℚ) (lot : Lot) :
    (mkReal sp sd sf ta need lot).holding_days = sd - lot.date := rfl

theorem mkReal_term (sp : ℚ) (sd : Int) (sf ta need : ℚ) (lot : Lot) :
    (mkReal sp sd sf ta need lot).term
      = if 365 < sd - lot.date then "Long" else "Short" := rfl

theorem stepTx_buy (s : List Lot × List Realization) (tx : Tx)
    (h : tx.type = TRANSACTION_BUY) :
    stepTx s tx =
      (s.1 ++ [{ amount := tx.amount, price := tx.price, date := tx.date, fees := tx.fees }],
        s.2) := by
  simp [stepTx, h]

theorem stepTx_sale (s : List Lot × List Realization) (tx : Tx)
    (h : tx.type = TRANSACTION_SELL) :
    stepTx s tx =
      ((sellLoop tx.price tx.date tx.fees tx.amount tx.amount s.1).2,
        s.2 ++ (sellLoop tx.price tx.date tx.fees tx.amount tx.amount s.1).1) := by
  simp [stepTx, h, TRANSACTION_SELL, TRANSACTION_BUY]

theorem stepTx_other (s : List Lot × List Realization) (tx : Tx)
    (h1 : tx.type ≠ TRANSACTION_BUY) (h2 : tx.type ≠ TRANSACTION_SELL) :
    stepTx s tx = s := by
  simp [stepTx, h1, h2]

/-- The lot-queue component of one loop iteration, in isolation. -/
def stepLots (ls : List Lot) (tx : Tx) : List Lot := (stepTx (ls, []) tx).1

theorem stepTx_decomp (ls : List Lot) (rs : List Realization) (tx : Tx) :
    stepTx (ls, rs) tx = (stepLots ls tx, rs ++ (stepTx (ls, []) tx).2) := by
  simp only [stepTx, stepLots]
  split
  · simp
  · split
    · simp
    · simp

theorem foldl_stepTx_fst (l : List Tx) : ∀ (ls : List Lot) (rs : List Realization),
    (l.foldl stepTx (ls, rs)).1 = l.foldl stepLots ls := by
  induction l with
  | nil => intro ls rs; rfl
  | cons tx l ih =>
    intro ls rs
    simp only [List.foldl_cons]
    rw [stepTx_decomp]
    exact ih _ _

theorem foldl_stepTx_snd (l : List Tx) : ∀ (ls : List Lot) (rs : List Realization),
    (l.foldl stepTx (ls, rs)).2 = rs ++ (l.foldl stepTx (ls, [])).2 := by
  induction l with
  | nil => intro ls rs; simp
  | cons tx l ih =>
    intro ls rs
    have h1 : (List.foldl stepTx (stepTx (ls, rs) tx) l).2
        = (rs ++ (stepTx (ls, []) tx).2) ++ (List.foldl stepTx (stepLots ls tx, []) l).2 := by
      rw [stepTx_decomp]; exact ih _ _
    have h2 : (List.foldl stepTx (stepTx (ls, []) tx) l).2
        = (stepTx (ls, []) tx).2 ++ (List.foldl stepTx (stepLots ls tx, []) l).2 := by
      rw [stepTx_decomp]
      rw [ih (stepLots ls tx) ([] ++ (stepTx (ls, []) tx).2)]
    simp only [List.foldl_cons]
    rw [h1, h2, List.append_assoc]

theorem lotsAfter_eq_foldl (txs : List Tx) :
    lotsAfter txs = txs.foldl stepLots [] := by
  simp only [lotsAfter]
  exact foldl_stepTx_fst txs [] []

theorem stepLots_buy (ls : List Lot) (tx : Tx) (h : tx.type = TRANSACTION_BUY) :
    stepLots ls tx =
      ls ++ [{ amount := tx.amount, price := tx.price, date := tx.date, fees := tx.fees }] := by
  simp [stepLots, stepTx_buy _ _ h]

theorem stepLots_sale (ls : List Lot) (tx : Tx) (h : tx.type = TRANSACTION_SELL) :
    stepLots ls tx = (sellLoop tx.price tx.date tx.fees tx.amount tx.amount ls).2 := by
  simp [stepLots, stepTx_sale _ _ h]

theorem stepLots_other (ls : List Lot) (tx : Tx)
    (h1 : tx.type ≠ TRANSACTION_BUY) (h2 : tx.type ≠ TRANSACTION_SELL) :
    stepLots ls tx = ls := by
  simp [stepLots, stepTx_other _ _ h1 h2]

theorem str_SALE_BUY : (("SALE" : String) = "BUY") = False := by simp

theorem str_BUY_SALE : (("BUY" : String) = "SALE") = False := by simp

theorem str_DEPOSIT_BUY : (("DEPOSIT" : String) = "BUY") = False := by simp

theorem str_DEPOSIT_SALE : (("DEPOSIT" : String) = "SALE") = False := by simp

theorem str_Short_Short : (("Short" : String) = "Short") = True := by simp

theorem str_Long_Short : (("Long" : String) = "Short") = False := by simp

/-! ### Concrete inputs used to exercise the code -/

/-- A lot with fee 10 and amount 2, split across two sells (prices 0, so the
realization gains isolate the lot-side fee attribution). -/
def c1txs : List Tx :=
  [⟨0, "BUY", 2, 0, 10⟩, ⟨1, "SALE", 1, 0, 0⟩, ⟨2, "SALE", 1, 0, 0⟩]

/-- Buy 1 unit, then sell 2 units: an oversold history. -/
def c2txs : List Tx := [⟨0, "BUY", 1, 0, 0⟩, ⟨1, "SALE", 2, 0, 0⟩]

/-- Buy 1 unit, then sell `10 ^ (-9)` units: fully satisfiable, but the
consumed amount is below the 8-decimal rounding granularity. -/
def c3txs : List Tx := [⟨0, "BUY", 1, 0, 0⟩, ⟨1, "SALE", 1/10^9, 0, 0⟩]

/-- The sell transaction of `c3txs` (its index-1 element). -/
def c3tx : Tx := ⟨1, "SALE", 1/10^9, 0, 0⟩

/-- One sell whose exact gain 0.111 and exact tax 0.02664 are not
representable at the 2-decimal rounding the code bakes into the record. -/
def c7txs : List Tx := [⟨0, "BUY", 1, 0, 0⟩, ⟨1, "SALE", 1, 111/1000, 0⟩]

/-- A history containing a transaction of kind `'DEPOSIT'`, which is neither
`'BUY'` nor `'SALE'`. -/
def c8txs : List Tx :=
  [⟨0, "DEPOSIT", 5, 5, 5⟩, ⟨1, "BUY", 1, 0, 0⟩, ⟨2, "SALE", 1, 0, 0⟩]

/-! ### Claim theorems settled by concrete evaluation -/

/-- C1: the code divides the lot-side fee by the lot's current remaining
amount (line 87), not its original amount.  On `c1txs` (one lot of amount 2
with fee 10, fully consumed by two sells of 1; every price and other fee 0)
the two realizations carry gains `-5` and `-10`: the lot-side fee amounts
attributed are `10 * (1/2) = 5` and then `10 * (1/1) = 10`, summing to
`15 ≠ 10`, where the claim requires `5` and `5` summing to the lot's fee
`10` exactly. -/
theorem c1_code_eval :
    (calculate_gains c1txs).map (fun r => r.gain) = [-5, -10] ∧
    (((calculate_gains c1txs).map (fun r => r.gain)).sum = -15 ∧ ¬ ((-15 : ℚ) = -10)) := by
  norm_num [c1txs, c2txs, c3txs, c3tx, c7txs, c8txs, calculate_gains, lotsAfter, lotTotal,
    stepTx, sellLoop, mkReal, TRANSACTION_BUY, TRANSACTION_SELL, SHORT_TERM_TAX_RATE,
    LONG_TERM_TAX_RATE, MAX_CAPITAL_LOSS_DEDUCTION, summarize_gains, summarizeStep,
    roundq, roundHalfEven, str_SALE_BUY, str_BUY_SALE, str_DEPOSIT_BUY, str_DEPOSIT_SALE,
    str_Short_Short, str_Long_Short, List.foldl, List.take]

/-- C2: on `c2txs` (buy 1, then sell 2) the code silently returns a
truncated realization list: the single realization consumes 1 of the 2 sold
units and no error of any kind is signalled (the function's result type has
no error channel). -/
theorem c2_code_eval :
    calculate_gains c2txs =
      [{ sell_date := 1, buy_date := 0, amount := 1, cost_basis := 0, proceeds := 0,
         gain := 0, holding_days := 1, term := "Short", tax_rate := 24/100, tax_owed := 0 }] ∧
    ((calculate_gains c2txs).map (fun r => r.amount)).sum ≠ (2 : ℚ) := by
  norm_num [c1txs, c2txs, c3txs, c3tx, c7txs, c8txs, calculate_gains, lotsAfter, lotTotal,
    stepTx, sellLoop, mkReal, TRANSACTION_BUY, TRANSACTION_SELL, SHORT_TERM_TAX_RATE,
    LONG_TERM_TAX_RATE, MAX_CAPITAL_LOSS_DEDUCTION, summarize_gains, summarizeStep,
    roundq, roundHalfEven, str_SALE_BUY, str_BUY_SALE, str_DEPOSIT_BUY, str_DEPOSIT_SALE,
    str_Short_Short, str_Long_Short, List.foldl, List.take]

/-- C7: the summary buckets are computed from the rounded per-realization
values, not at full precision.  On `c7txs` the sole realization's exact gain
is `0.111` (tax `0.02664`), but the code stores `round(gain, 2) = 0.11` and
`round(tax, 2) = 0.03` in the record and sums those: the summary reports
`st_gain = 0.11 ≠ 0.111` and `total_tax = 0.03 ≠ 0.111 * 0.24`. -/
theorem c7_code_eval :
    (summarize_gains (calculate_gains c7txs)).st_gain = 11/100 ∧
    (summarize_gains (calculate_gains c7txs)).total_tax = 3/100 ∧
    ¬ ((11 : ℚ)/100 = 111/1000) ∧ ¬ ((3 : ℚ)/100 = (111/1000) * (24/100)) := by
  norm_num [c1txs, c2txs, c3txs, c3tx, c7txs, c8txs, calculate_gains, lotsAfter, lotTotal,
    stepTx, sellLoop, mkReal, TRANSACTION_BUY, TRANSACTION_SELL, SHORT_TERM_TAX_RATE,
    LONG_TERM_TAX_RATE, MAX_CAPITAL_LOSS_DEDUCTION, summarize_gains, summarizeStep,
    roundq, roundHalfEven, str_SALE_BUY, str_BUY_SALE, str_DEPOSIT_BUY, str_DEPOSIT_SALE,
    str_Short_Short, str_Long_Short, List.foldl, List.take]

/-- C3 counterexample: the claim fails as stated on the code.  In `c3txs`
the sell of `10 ^ (-9)` units is fully satisfiable (open lot total is 1),
yet the emitted `amount` fields (rounded to 8 decimals, line 97) sum to
`0 ≠ 10 ^ (-9)`. -/
theorem c3_counterexample :
    c3txs[1]? = some c3tx ∧ c3tx.type = TRANSACTION_SELL ∧
    c3tx.amount ≤ lotTotal (lotsAfter (c3txs.take 1)) ∧
    ((calculate_gains c3txs).map (fun r => r.amount)).sum ≠ c3tx.amount := by
  refine ⟨rfl, rfl, ?_, ?_⟩
  · norm_num [c1txs, c2txs, c3txs, c3tx, c7txs, c8txs, calculate_gains, lotsAfter, lotTotal,
    stepTx, sellLoop, mkReal, TRANSACTION_BUY, TRANSACTION_SELL, SHORT_TERM_TAX_RATE,
    LONG_TERM_TAX_RATE, MAX_CAPITAL_LOSS_DEDUCTION, summarize_gains, summarizeStep,
    roundq, roundHalfEven, str_SALE_BUY, str_BUY_SALE, str_DEPOSIT_BUY, str_DEPOSIT_SALE,
    str_Short_Short, str_Long_Short, List.foldl, List.take]
  · norm_num [c1txs, c2txs, c3txs, c3tx, c7txs, c8txs, calculate_gains, lotsAfter, lotTotal,
    stepTx, sellLoop, mkReal, TRANSACTION_BUY, TRANSACTION_SELL, SHORT_TERM_TAX_RATE,
    LONG_TERM_TAX_RATE, MAX_CAPITAL_LOSS_DEDUCTION, summarize_gains, summarizeStep,
    roundq, roundHalfEven, str_SALE_BUY, str_BUY_SALE, str_DEPOSIT_BUY, str_DEPOSIT_SALE,
    str_Short_Short, str_Long_Short, List.foldl, List.take]

/-! ### Invariant lemmas -/

theorem isMult8_min {a b : ℚ} (ha : isMult8 a) (hb : isMult8 b) : isMult8 (min a b) := by
  rcases min_choice a b with h | h <;> rw [h] <;> assumption

theorem isMult8_sub {a b : ℚ} (ha : isMult8 a) (hb : isMult8 b) : isMult8 (a - b) := by
  obtain ⟨k, hk⟩ := ha
  obtain ⟨m, hm⟩ := hb
  refine ⟨k - m, ?_⟩
  rw [hk, hm]
  push_cast
  ring

theorem roundHalfEven_intCast (k : ℤ) : roundHalfEven (k : ℚ) = k := by
  rw [roundHalfEven, Int.floor_intCast]
  norm_num

theorem roundq8_eq_self {x : ℚ} (hx : isMult8 x) : roundq 8 x = x := by
  obtain ⟨k, hk⟩ := hx
  have hxk : x * 10 ^ 8 = (k : ℚ) := by rw [hk]; field_simp
  rw [roundq, hxk, roundHalfEven_intCast, hk]

theorem lotTotal_nil : lotTotal [] = 0 := rfl

theorem lotTotal_cons (lot : Lot) (rest : List Lot) :
    lotTotal (lot :: rest) = lot.amount + lotTotal rest := by
  simp [lotTotal]

/-- Every lot the sell loop leaves behind still has positive remaining
amount: each draw takes `min need lot.amount ≤ lot.amount`, and a lot drawn
to exactly zero is popped. -/
theorem sellLoop_lots_pos (sp : ℚ) (sd : Int) (sf ta : ℚ) :
    ∀ (ls : List Lot) (need : ℚ), (∀ l ∈ ls, 0 < l.amount) →
      ∀ l ∈ (sellLoop sp sd sf ta need ls).2, 0 < l.amount := by
  intro ls
  induction ls with
  | nil =>
    intro need _ l hl
    rw [sellLoop_nil] at hl
    simp at hl
  | cons lot rest ih =>
    intro need hpos l hl
    by_cases h0 : 0 < need
    · by_cases hz : lot.amount - min need lot.amount = 0
      · rw [sellLoop_cons_pop sp sd sf ta need lot rest h0 hz] at hl
        exact ih _ (fun x hx => hpos x (List.mem_cons_of_mem _ hx)) l hl
      · rw [sellLoop_cons_keep sp sd sf ta need lot rest h0 hz] at hl
        rcases List.mem_cons.mp hl with h | h
        · subst h
          show 0 < lot.amount - min need lot.amount
          have hle : min need lot.amount ≤ lot.amount := min_le_right _ _
          rcases lt_or_eq_of_le (by linarith : (0:ℚ) ≤ lot.amount - min need lot.amount)
            with hlt | heq
          · exact hlt
          · exact absurd heq.symm hz
        · exact hpos l (List.mem_cons_of_mem _ h)
    · rw [sellLoop_cons_nonpos sp sd sf ta need lot rest h0] at hl
      exact hpos l hl

/-- As `sellLoop_lots_pos`, but also preserving 8-decimal quantization. -/
theorem sellLoop_lots_good (sp : ℚ) (sd : Int) (sf ta : ℚ) :
    ∀ (ls : List Lot) (need : ℚ),
      (∀ l ∈ ls, 0 < l.amount ∧ isMult8 l.amount) → isMult8 need →
      ∀ l ∈ (sellLoop sp sd sf ta need ls).2, 0 < l.amount ∧ isMult8 l.amount := by
  intro ls
  induction ls with
  | nil =>
    intro need _ _ l hl
    rw [sellLoop_nil] at hl
    simp at hl
  | cons lot rest ih =>
    intro need hgood hm l hl
    by_cases h0 : 0 < need
    · by_cases hz : lot.amount - min need lot.amount = 0
      · rw [sellLoop_cons_pop sp sd sf ta need lot rest h0 hz] at hl
        exact ih _ (fun x hx => hgood x (List.mem_cons_of_mem _ hx))
          (isMult8_sub hm (isMult8_min hm (hgood lot (List.mem_cons_self _ _)).2)) l hl
      · rw [sellLoop_cons_keep sp sd sf ta need lot rest h0 hz] at hl
        rcases List.mem_cons.mp hl with h | h
        · subst h
          constructor
          · show 0 < lot.amount - min need lot.amount
            have hle : min need lot.amount ≤ lot.amount := min_le_right _ _
            rcases lt_or_eq_of_le (by linarith : (0:ℚ) ≤ lot.amount - min need lot.amount)
              with hlt | heq
            · exact hlt
            · exact absurd heq.symm hz
          · show isMult8 (lot.amount - min need lot.amount)
            exact isMult8_sub (hgood lot (List.mem_cons_self _ _)).2
              (isMult8_min hm (hgood lot (List.mem_cons_self _ _)).2)
        · exact hgood l (List.mem_cons_of_mem _ h)
    · rw [sellLoop_cons_nonpos sp sd sf ta need lot rest h0] at hl
      exact hgood l hl

/-- Conservation at the level of one sell: when the need is non-negative, at
most the total open quantity, and everything is 8-decimal quantized (so the
rounding on the emitted `amount` field is the identity), the emitted amounts
sum to exactly the need. -/
theorem sellLoop_sum (sp : ℚ) (sd : Int) (sf ta : ℚ) :
    ∀ (ls : List Lot) (need : ℚ), 0 ≤ need → need ≤ lotTotal ls →
      (∀ l ∈ ls, 0 < l.amount ∧ isMult8 l.amount) → isMult8 need →
      (((sellLoop sp sd sf ta need ls).1).map (fun r => r.amount)).sum = need := by
  intro ls
  induction ls with
  | nil =>
    intro need h0 hle _ _
    rw [sellLoop_nil]
    have hz : need = 0 := le_antisymm (by simpa [lotTotal] using hle) h0
    simp [hz]
  | cons lot rest ih =>
    intro need h0 hle hgood hm
    by_cases hpos : 0 < need
    · have hlotm := (hgood lot (List.mem_cons_self _ _)).2
      by_cases hz : lot.amount - min need lot.amount = 0
      · rw [sellLoop_cons_pop sp sd sf ta need lot rest hpos hz]
        have hmin : min need lot.amount = lot.amount := by linarith [min_le_right need lot.amount]
        have hlotle : lot.amount ≤ need := by
          have := min_le_left need lot.amount
          linarith [this, hmin.symm.le]
        simp only [List.map_cons, List.sum_cons, mkReal_amount]
        rw [roundq8_eq_self (isMult8_min hm hlotm)]
        rw [ih (need - min need lot.amount) (by rw [hmin]; linarith)
          (by rw [hmin]; rw [lotTotal_cons] at hle; linarith)
          (fun x hx => hgood x (List.mem_cons_of_mem _ hx))
          (isMult8_sub hm (isMult8_min hm hlotm))]
        ring
      · rw [sellLoop_cons_keep sp sd sf ta need lot rest hpos hz]
        have hmin : min need lot.amount = need := min_eq_left_of_sub_ne hz
        simp only [List.map_cons, List.map_nil, List.sum_cons, List.sum_nil, mkReal_amount]
        rw [hmin, roundq8_eq_self hm]
        ring
    · have hz : need = 0 := le_antisymm (not_lt.mp hpos) h0
      rw [sellLoop_cons_nonpos sp sd sf ta need lot rest hpos]
      simp [hz]

/-- The run-level positivity invariant: folding the transaction loop from a
queue of positive lots with positive transaction amounts keeps every lot
positive. -/
theorem foldl_stepLots_pos : ∀ (l : List Tx) (ls : List Lot),
    (∀ tx ∈ l, 0 < tx.amount) → (∀ x ∈ ls, 0 < x.amount) →
    ∀ x ∈ l.foldl stepLots ls, 0 < x.amount := by
  intro l
  induction l with
  | nil => intro ls _ hls x hx; exact hls x hx
  | cons tx l ih =>
    intro ls hl hls x hx
    simp only [List.foldl_cons] at hx
    refine ih (stepLots ls tx) (fun t ht => hl t (List.mem_cons_of_mem _ ht)) ?_ x hx
    intro y hy
    by_cases hb : tx.type = TRANSACTION_BUY
    · rw [stepLots_buy ls tx hb] at hy
      rcases List.mem_append.mp hy with h | h
      · exact hls y h
      · simp only [List.mem_singleton] at h
        subst h
        exact hl tx (List.mem_cons_self _ _)
    · by_cases hsale : tx.type = TRANSACTION_SELL
      · rw [stepLots_sale ls tx hsale] at hy
        exact sellLoop_lots_pos _ _ _ _ ls tx.amount hls y hy
      · rw [stepLots_other ls tx hb hsale] at hy
        exact hls y hy

/-- The run-level quantized-positivity invariant. -/
theorem foldl_stepLots_good : ∀ (l : List Tx) (ls : List Lot),
    (∀ tx ∈ l, 0 < tx.amount ∧ isMult8 tx.amount) →
    (∀ x ∈ ls, 0 < x.amount ∧ isMult8 x.amount) →
    ∀ x ∈ l.foldl stepLots ls, 0 < x.amount ∧ isMult8 x.amount := by
  intro l
  induction l with
  | nil => intro ls _ hls x hx; exact hls x hx
  | cons tx l ih =>
    intro ls hl hls x hx
    simp only [List.foldl_cons] at hx
    refine ih (stepLots ls tx) (fun t ht => hl t (List.mem_cons_of_mem _ ht)) ?_ x hx
    intro y hy
    by_cases hb : tx.type = TRANSACTION_BUY
    · rw [stepLots_buy ls tx hb] at hy
      rcases List.mem_append.mp hy with h | h
      · exact hls y h
      · simp only [List.mem_singleton] at h
        subst h
        exact hl tx (List.mem_cons_self _ _)
    · by_cases hsale : tx.type = TRANSACTION_SELL
      · rw [stepLots_sale ls tx hsale] at hy
        exact sellLoop_lots_good _ _ _ _ ls tx.amount hls
          (hl tx (List.mem_cons_self _ _)).2 y hy
      · rw [stepLots_other ls tx hb hsale] at hy
        exact hls y hy

/-- The lot queue the sell loop leaves is a tail segment of the input queue
except that the front surviving lot may have had its amount decremented: its
date sequence is a `drop` of the input's date sequence. -/
theorem sellLoop_lots_dates (sp : ℚ) (sd : Int) (sf ta : ℚ) :
    ∀ (ls : List Lot) (need : ℚ), ∃ n : ℕ,
      ((sellLoop sp sd sf ta need ls).2).map (fun l => l.date)
        = (ls.map (fun l => l.date)).drop n := by
  intro ls
  induction ls with
  | nil => intro need; exact ⟨0, by rw [sellLoop_nil]; rfl⟩
  | cons lot rest ih =>
    intro need
    by_cases h0 : 0 < need
    · by_cases hz : lot.amount - min need lot.amount = 0
      · obtain ⟨n, hn⟩ := ih (need - min need lot.amount)
        refine ⟨n + 1, ?_⟩
        rw [sellLoop_cons_pop sp sd sf ta need lot rest h0 hz]
        rw [List.map_cons, List.drop_succ_cons]
        exact hn
      · exact ⟨0, by rw [sellLoop_cons_keep sp sd sf ta need lot rest h0 hz]; simp⟩
    · exact ⟨0, by rw [sellLoop_cons_nonpos sp sd sf ta need lot rest h0]; rfl⟩

/-- The realizations a sell emits draw on a front segment of the queue: their
buy-date sequence is a `take` of the queue's date sequence. -/
theorem sellLoop_reals_dates (sp : ℚ) (sd : Int) (sf ta : ℚ) :
    ∀ (ls : List Lot) (need : ℚ), ∃ n : ℕ,
      ((sellLoop sp sd sf ta need ls).1).map (fun r => r.buy_date)
        = (ls.map (fun l => l.date)).take n := by
  intro ls
  induction ls with
  | nil => intro need; exact ⟨0, by rw [sellLoop_nil]; rfl⟩
  | cons lot rest ih =>
    intro need
    by_cases h0 : 0 < need
    · by_cases hz : lot.amount - min need lot.amount = 0
      · obtain ⟨n, hn⟩ := ih (need - min need lot.amount)
        refine ⟨n + 1, ?_⟩
        rw [sellLoop_cons_pop sp sd sf ta need lot rest h0 hz]
        rw [List.map_cons, List.map_cons, List.take_succ_cons, mkReal_buy_date]
        rw [hn]
      · refine ⟨1, ?_⟩
        rw [sellLoop_cons_keep sp sd sf ta need lot rest h0 hz]
        simp [mkReal_buy_date]
    · exact ⟨0, by rw [sellLoop_cons_nonpos sp sd sf ta need lot rest h0]; simp⟩

/-- Date-sortedness of the queue through the whole run: starting from a
date-sorted queue bounded by the remaining transactions' dates, the queue
stays date-sorted. -/
theorem foldl_stepLots_sorted : ∀ (l : List Tx) (ls : List Lot),
    l.Pairwise (fun a b => a.date ≤ b.date) →
    ls.Pairwise (fun a b => a.date ≤ b.date) →
    (∀ x ∈ ls, ∀ t ∈ l, x.date ≤ t.date) →
    (l.foldl stepLots ls).Pairwise (fun a b => a.date ≤ b.date) := by
  intro l
  induction l with
  | nil => intro ls _ hls _; exact hls
  | cons tx l ih =>
    intro ls hl hls hbound
    simp only [List.foldl_cons]
    have htx := (List.pairwise_cons.mp hl).1
    have hl' := (List.pairwise_cons.mp hl).2
    refine ih (stepLots ls tx) hl' ?_ ?_
    · by_cases hb : tx.type = TRANSACTION_BUY
      · rw [stepLots_buy ls tx hb]
        rw [List.pairwise_append]
        refine ⟨hls, by simp, ?_⟩
        intro a ha b hb'
        simp only [List.mem_singleton] at hb'
        subst hb'
        exact hbound a ha tx (List.mem_cons_self _ _)
      · by_cases hsale : tx.type = TRANSACTION_SELL
        · rw [stepLots_sale ls tx hsale]
          obtain ⟨n, hn⟩ :=
            sellLoop_lots_dates tx.price tx.date tx.fees tx.amount ls tx.amount
          have hdates : ((ls.map (fun l => l.date)).drop n).Pairwise (· ≤ ·) :=
            (List.pairwise_map.mpr hls).sublist (List.drop_sublist n _)
          rw [← hn] at hdates
          exact List.pairwise_map.mp hdates
        · rw [stepLots_other ls tx hb hsale]
          exact hls
    · intro y hy t ht
      by_cases hb : tx.type = TRANSACTION_BUY
      · rw [stepLots_buy ls tx hb] at hy
        rcases List.mem_append.mp hy with h | h
        · exact hbound y h t (List.mem_cons_of_mem _ ht)
        · simp only [List.mem_singleton] at h
          subst h
          exact htx t ht
      · by_cases hsale : tx.type = TRANSACTION_SELL
        · rw [stepLots_sale ls tx hsale] at hy
          obtain ⟨n, hn⟩ :=
            sellLoop_lots_dates tx.price tx.date tx.fees tx.amount ls tx.amount
          have hyd : y.date ∈ ((sellLoop tx.price tx.date tx.fees tx.amount tx.amount
              ls).2).map (fun l => l.date) := List.mem_map_of_mem _ hy
          rw [hn] at hyd
          obtain ⟨z, hz, hzd⟩ := List.mem_map.mp (List.mem_of_mem_drop hyd)
          rw [← hzd]
          exact hbound z hz t (List.mem_cons_of_mem _ ht)
        · rw [stepLots_other ls tx hb hsale] at hy
          exact hbound y hy t (List.mem_cons_of_mem _ ht)

/-- Each emitted realization is the record built by one iteration of the
sell-loop body. -/
theorem sellLoop_reals_mkReal (sp : ℚ) (sd : Int) (sf ta : ℚ) :
    ∀ (ls : List Lot) (need : ℚ), ∀ r ∈ (sellLoop sp sd sf ta need ls).1,
      ∃ need' lot, r = mkReal sp sd sf ta need' lot := by
  intro ls
  induction ls with
  | nil =>
    intro need r hr
    rw [sellLoop_nil] at hr
    simp at hr
  | cons lot rest ih =>
    intro need r hr
    by_cases h0 : 0 < need
    · by_cases hz : lot.amount - min need lot.amount = 0
      · rw [sellLoop_cons_pop sp sd sf ta need lot rest h0 hz] at hr
        rcases List.mem_cons.mp hr with h | h
        · exact ⟨need, lot, h⟩
        · exact ih _ r h
      · rw [sellLoop_cons_keep sp sd sf ta need lot rest h0 hz] at hr
        simp only [List.mem_singleton] at hr
        exact ⟨need, lot, hr⟩
    · rw [sellLoop_cons_nonpos sp sd sf ta need lot rest h0] at hr
      simp at hr

/-- Every record in `calculate_gains`'s output was built by `mkReal`. -/
theorem calculate_gains_mem (txs : List Tx) (r : Realization)
    (hr : r ∈ calculate_gains txs) :
    ∃ sp sd sf ta need lot, r = mkReal sp sd sf ta need lot := by
  suffices h : ∀ (l : List Tx) (s : List Lot × List Realization),
      r ∈ (l.foldl stepTx s).2 →
      r ∈ s.2 ∨ ∃ sp sd sf ta need lot, r = mkReal sp sd sf ta need lot by
    rcases h txs ([], []) hr with h' | h'
    · simp at h'
    · exact h'
  intro l
  induction l with
  | nil => intro s h; exact Or.inl h
  | cons tx l ih =>
    intro s h
    simp only [List.foldl_cons] at h
    rcases ih (stepTx s tx) h with h' | h'
    · by_cases hb : tx.type = TRANSACTION_BUY
      · rw [stepTx_buy s tx hb] at h'
        exact Or.inl h'
      · by_cases hsale : tx.type = TRANSACTION_SELL
        · rw [stepTx_sale s tx hsale] at h'
          rcases List.mem_append.mp h' with h2 | h2
          · exact Or.inl h2
          · obtain ⟨need', lot, hrl⟩ := sellLoop_reals_mkReal _ _ _ _ _ _ r h2
            exact Or.inr ⟨tx.price, tx.date, tx.fees, tx.amount, need', lot, hrl⟩
        · rw [stepTx_other s tx hb hsale] at h'
          exact Or.inl h'
    · exact Or.inr h'

theorem mkReal_props (sp : ℚ) (sd : Int) (sf ta need : ℚ) (lot : Lot) :
    (mkReal sp sd sf ta need lot).holding_days
        = (mkReal sp sd sf ta need lot).sell_date - (mkReal sp sd sf ta need lot).buy_date ∧
    ((mkReal sp sd sf ta need lot).term = "Long"
        ↔ 365 < (mkReal sp sd sf ta need lot).holding_days) ∧
    ((mkReal sp sd sf ta need lot).term = "Short"
        ↔ ¬ 365 < (mkReal sp sd sf ta need lot).holding_days) := by
  refine ⟨rfl, ?_, ?_⟩ <;>
  · rw [mkReal_term, mkReal_holding_days]
    by_cases h : 365 < sd - lot.date
    · simp [h]
    · simp [h]

/-- C8 counterexample: the code does not reject a transaction whose kind is
neither Buy nor Sell; `calculate_gains` silently skips the `'DEPOSIT'` row of
`c8txs` and returns the same normal realization list as for the history
without it. -/
theorem c8_counterexample :
    calculate_gains c8txs = calculate_gains [⟨1, "BUY", 1, 0, 0⟩, ⟨2, "SALE", 1, 0, 0⟩] ∧
    calculate_gains c8txs =
      [{ sell_date := 2, buy_date := 1, amount := 1, cost_basis := 0, proceeds := 0,
         gain := 0, holding_days := 1, term := "Short", tax_rate := 24/100,
         tax_owed := 0 }] := by
  constructor <;>
  · norm_num [c1txs, c2txs, c3txs, c3tx, c7txs, c8txs, calculate_gains, lotsAfter, lotTotal,
    stepTx, sellLoop, mkReal, TRANSACTION_BUY, TRANSACTION_SELL, SHORT_TERM_TAX_RATE,
    LONG_TERM_TAX_RATE, MAX_CAPITAL_LOSS_DEDUCTION, summarize_gains, summarizeStep,
    roundq, roundHalfEven, str_SALE_BUY, str_BUY_SALE, str_DEPOSIT_BUY, str_DEPOSIT_SALE,
    str_Short_Short, str_Long_Short, List.foldl, List.take]

/-! ### State-threaded interpreters (frame conditions) -/

theorem calcStep_transactions (s : GainsState) (tx : Tx) :
    (calcStep s tx).transactions = s.transactions := by
  simp only [calcStep]
  split
  · rfl
  · split
    · rfl
    · rfl

theorem foldl_calcStep_transactions : ∀ (l : List Tx) (s : GainsState),
    (l.foldl calcStep s).transactions = s.transactions := by
  intro l
  induction l with
  | nil => intro s; rfl
  | cons tx l ih =>
    intro s
    rw [List.foldl_cons, ih, calcStep_transactions]

theorem calcStep_proj (s : GainsState) (tx : Tx) :
    (calcStep s tx).lots = (stepTx (s.lots, s.realized) tx).1 ∧
    (calcStep s tx).realized = (stepTx (s.lots, s.realized) tx).2 := by
  simp only [calcStep, stepTx]
  split
  · simp
  · split
    · simp
    · simp

theorem foldl_calcStep_run : ∀ (l : List Tx) (s : GainsState),
    (l.foldl calcStep s).lots = (l.foldl stepTx (s.lots, s.realized)).1 ∧
    (l.foldl calcStep s).realized = (l.foldl stepTx (s.lots, s.realized)).2 := by
  intro l
  induction l with
  | nil => intro s; exact ⟨rfl, rfl⟩
  | cons tx l ih =>
    intro s
    rw [List.foldl_cons, List.foldl_cons]
    have h := calcStep_proj s tx
    constructor
    · rw [(ih (calcStep s tx)).1, h.1, h.2, Prod.mk.eta]
    · rw [(ih (calcStep s tx)).2, h.1, h.2, Prod.mk.eta]

theorem foldl_summStep : ∀ (l : List Realization) (s : List Realization × (ℚ × ℚ × ℚ × ℚ × ℚ)),
    (l.foldl summStep s).1 = s.1 ∧ (l.foldl summStep s).2 = l.foldl summarizeStep s.2 := by
  intro l
  induction l with
  | nil => intro s; exact ⟨rfl, rfl⟩
  | cons g l ih =>
    intro s
    rw [List.foldl_cons, List.foldl_cons]
    exact ⟨(ih _).1, (ih _).2⟩

/-! ### Concrete inputs for the witnesses -/

/-- Buy 1 at 10 on day 0; sell 1 at 20 on day 400. -/
def w3txs : List Tx := [⟨0, "BUY", 1, 10, 0⟩, ⟨400, "SALE", 1, 20, 0⟩]

/-- Two buys on days 0 and 1, one sale of 1.5 on day 400. -/
def w4txs : List Tx :=
  [⟨0, "BUY", 1, 10, 0⟩, ⟨1, "BUY", 1, 12, 0⟩, ⟨400, "SALE", 3/2, 20, 0⟩]

/-- Buy on day 0, sell on day 365: the short side of the boundary. -/
def w5txs : List Tx := [⟨0, "BUY", 1, 10, 0⟩, ⟨365, "SALE", 1, 20, 0⟩]

/-- The realization emitted for `w5txs`. -/
def w5r : Realization := ⟨365, 0, 1, 10, 20, 10, 365, "Short", 24/100, 12/5⟩

/-- A single buy of one unit. -/
def w9txs : List Tx := [⟨0, "BUY", 1, 10, 0⟩]

/-- A realization with a 5000 short-term loss. -/
def c6lossBig : Realization := ⟨0, 0, 1, 0, 0, -5000, 0, "Short", 0, 0⟩

/-- A realization with a 1000 short-term loss. -/
def c6lossSmall : Realization := ⟨0, 0, 1, 0, 0, -1000, 0, "Short", 0, 0⟩

/-- A realization with a short-term gain. -/
def c6gainOnly : Realization := ⟨0, 0, 1, 0, 0, 5, 0, "Short", 0, 0⟩

/-! ### Remaining claim theorems -/

/-- C3 (amended): for a date-ordered history whose transaction amounts are
positive multiples of `10 ^ (-8)` (the granularity of the rounding the code
applies to the emitted `amount` field), every Sell whose amount does not
exceed the total remaining open-lot quantity at its position has its emitted
`amount` fields sum to exactly the Sell's amount; and those emitted records
are exactly what processing the Sell appends to `realized`. -/
theorem c3_conservation (txs : List Tx)
    (hall : ∀ tx ∈ txs, 0 < tx.amount ∧ isMult8 tx.amount)
    (n : ℕ) (tx : Tx) (hn : txs[n]? = some tx) (hty : tx.type = TRANSACTION_SELL)
    (hsat : tx.amount ≤ lotTotal (lotsAfter (txs.take n))) :
    (((sellLoop tx.price tx.date tx.fees tx.amount tx.amount
        (lotsAfter (txs.take n))).1).map (fun r => r.amount)).sum = tx.amount ∧
    calculate_gains (txs.take (n+1)) =
      calculate_gains (txs.take n) ++
        (sellLoop tx.price tx.date tx.fees tx.amount tx.amount (lotsAfter (txs.take n))).1 := by
  have htx_mem : tx ∈ txs := List.getElem?_mem hn
  have hgood : ∀ x ∈ lotsAfter (txs.take n), 0 < x.amount ∧ isMult8 x.amount := by
    rw [lotsAfter_eq_foldl]
    exact foldl_stepLots_good (txs.take n) []
      (fun t ht => hall t (List.take_subset n txs ht)) (by simp)
  constructor
  · exact sellLoop_sum _ _ _ _ _ _ (le_of_lt (hall tx htx_mem).1) hsat hgood
      (hall tx htx_mem).2
  · have htake : txs.take (n+1) = txs.take n ++ [tx] := by
      rw [List.take_succ, hn]
      rfl
    rw [htake]
    simp only [calculate_gains, List.foldl_append, List.foldl_cons, List.foldl_nil]
    rw [stepTx_sale _ _ hty]
    rfl

/-- Witness for `c3_conservation` at `w3txs`, selling the whole single lot. -/
theorem c3_conservation_witness :
    (((sellLoop (20 : ℚ) 400 0 1 1 (lotsAfter (w3txs.take 1))).1).map
        (fun r => r.amount)).sum = 1 :=
  (c3_conservation w3txs
    (by
      intro t ht
      simp only [w3txs, List.mem_cons, List.mem_singleton] at ht
      rcases ht with h | h | h
      · subst h; exact ⟨by norm_num, ⟨10 ^ 8, by norm_num⟩⟩
      · subst h; exact ⟨by norm_num, ⟨10 ^ 8, by norm_num⟩⟩
      · simp at h)
    1 ⟨400, "SALE", 1, 20, 0⟩ rfl rfl
    (by norm_num [w3txs, lotsAfter, lotTotal, stepTx, TRANSACTION_BUY, TRANSACTION_SELL,
      List.take, List.foldl])).1

/-- C4: if the input is sorted by date ascending, the open-lot queue after
any number of processed transactions is ordered by acquisition date
ascending, and the realizations any single Sell emits reference lots in
non-decreasing acquisition-date order. -/
theorem c4_fifo (txs : List Tx) (hs : txs.Pairwise (fun a b => a.date ≤ b.date)) :
    (∀ n : ℕ, (lotsAfter (txs.take n)).Pairwise (fun a b => a.date ≤ b.date)) ∧
    (∀ n : ℕ, ∀ tx : Tx, txs[n]? = some tx → tx.type = TRANSACTION_SELL →
      ((sellLoop tx.price tx.date tx.fees tx.amount tx.amount
          (lotsAfter (txs.take n))).1).Pairwise
        (fun r r' => r.buy_date ≤ r'.buy_date)) := by
  have hmain : ∀ n : ℕ, (lotsAfter (txs.take n)).Pairwise (fun a b => a.date ≤ b.date) := by
    intro n
    rw [lotsAfter_eq_foldl]
    exact foldl_stepLots_sorted (txs.take n) [] (hs.sublist (List.take_sublist n txs))
      (by simp) (by simp)
  refine ⟨hmain, ?_⟩
  intro n tx _hn _hty
  obtain ⟨m, hm⟩ := sellLoop_reals_dates tx.price tx.date tx.fees tx.amount
    (lotsAfter (txs.take n)) tx.amount
  have hdates : (((lotsAfter (txs.take n)).map (fun l => l.date)).take m).Pairwise
      (fun a b => a ≤ b) :=
    (List.pairwise_map.mpr (hmain n)).sublist (List.take_sublist m _)
  rw [← hm] at hdates
  exact List.pairwise_map.mp hdates

/-- Witness for `c4_fifo` at `w4txs`: the one sale at index 2. -/
theorem c4_fifo_witness :
    ((sellLoop (20 : ℚ) 400 0 (3/2) (3/2) (lotsAfter (w4txs.take 2))).1).Pairwise
      (fun r r' => r.buy_date ≤ r'.buy_date) :=
  (c4_fifo w4txs (by decide)).2 2 ⟨400, "SALE", 3/2, 20, 0⟩ rfl rfl

/-- C5: every emitted realization has `holding_days` equal to the whole-day
difference of its sell and buy dates, and is classified Long exactly when
`holding_days` strictly exceeds 365; in particular 365 days is Short and
366 days is Long. -/
theorem c5_term_boundary (txs : List Tx) (r : Realization) (hr : r ∈ calculate_gains txs) :
    r.holding_days = r.sell_date - r.buy_date ∧
    (r.term = "Long" ↔ 365 < r.holding_days) ∧
    (r.term = "Short" ↔ ¬ 365 < r.holding_days) ∧
    (r.holding_days = 365 → r.term = "Short") ∧
    (r.holding_days = 366 → r.term = "Long") := by
  obtain ⟨sp, sd, sf, ta, need, lot, hrl⟩ := calculate_gains_mem txs r hr
  subst hrl
  obtain ⟨h1, h2, h3⟩ := mkReal_props sp sd sf ta need lot
  refine ⟨h1, h2, h3, ?_, ?_⟩
  · intro h
    exact h3.mpr (by rw [h]; decide)
  · intro h
    exact h2.mpr (by rw [h]; decide)

/-- Witness for `c5_term_boundary`: the realization of `w5txs`
(365 holding days, classified Short). -/
theorem c5_term_boundary_witness :
    w5r.holding_days = w5r.sell_date - w5r.buy_date ∧
    (w5r.term = "Long" ↔ 365 < w5r.holding_days) ∧
    (w5r.term = "Short" ↔ ¬ 365 < w5r.holding_days) ∧
    (w5r.holding_days = 365 → w5r.term = "Short") ∧
    (w5r.holding_days = 366 → w5r.term = "Long") :=
  c5_term_boundary w5txs w5r (by
    have h : calculate_gains w5txs = [w5r] := by
      norm_num [w5txs, w5r, calculate_gains, stepTx, sellLoop, mkReal, TRANSACTION_BUY,
        TRANSACTION_SELL, SHORT_TERM_TAX_RATE, LONG_TERM_TAX_RATE, roundq, roundHalfEven,
        str_SALE_BUY, str_BUY_SALE, List.foldl]
    rw [h]
    exact List.mem_singleton_self _)

/-- C6: `summarize_gains` returns `deductible_loss = 0` when the net over
the four buckets is non-negative, and `min(|st_loss + lt_loss|, cap)`
otherwise; concretely, a net loss of 5000 gives 3000, a net loss of 1000
gives 1000, and a net gain gives 0. -/
theorem c6_deductible_loss (gains : List Realization) :
    (0 ≤ (summarize_gains gains).net_gain → (summarize_gains gains).deductible_loss = 0) ∧
    ((summarize_gains gains).net_gain < 0 →
      (summarize_gains gains).deductible_loss =
        min |(summarize_gains gains).st_loss + (summarize_gains gains).lt_loss|
          MAX_CAPITAL_LOSS_DEDUCTION) ∧
    (summarize_gains [c6lossBig]).deductible_loss = 3000 ∧
    (summarize_gains [c6lossSmall]).deductible_loss = 1000 ∧
    (summarize_gains [c6gainOnly]).deductible_loss = 0 := by
  refine ⟨?_, ?_, ?_, ?_, ?_⟩
  · intro h
    simp only [summarize_gains] at h ⊢
    rw [if_neg (not_lt.mpr h)]
  · intro h
    simp only [summarize_gains] at h ⊢
    rw [if_pos h]
  · norm_num [c6lossBig, summarize_gains, summarizeStep, MAX_CAPITAL_LOSS_DEDUCTION,
      str_Short_Short, List.foldl]
  · norm_num [c6lossSmall, summarize_gains, summarizeStep, MAX_CAPITAL_LOSS_DEDUCTION,
      str_Short_Short, List.foldl]
  · norm_num [c6gainOnly, summarize_gains, summarizeStep, MAX_CAPITAL_LOSS_DEDUCTION,
      str_Short_Short, List.foldl]

/-- Witness for `c6_deductible_loss`: the empty run has net 0 and no
deduction. -/
theorem c6_deductible_loss_witness : (summarize_gains []).deductible_loss = 0 :=
  (c6_deductible_loss []).1
    (by norm_num [summarize_gains, List.foldl])

/-- C8 (amended): `calculate_gains` silently skips a transaction whose kind
is neither `'BUY'` nor `'SALE'`: the output equals the output on the history
with that transaction removed, and no error is surfaced. -/
theorem c8_unknown_kind_skipped (pre post : List Tx) (tx : Tx)
    (h1 : tx.type ≠ TRANSACTION_BUY) (h2 : tx.type ≠ TRANSACTION_SELL) :
    calculate_gains (pre ++ tx :: post) = calculate_gains (pre ++ post) := by
  simp only [calculate_gains, List.foldl_append, List.foldl_cons]
  rw [stepTx_other _ tx h1 h2]

/-- Witness for `c8_unknown_kind_skipped` at a `'DEPOSIT'` transaction. -/
theorem c8_unknown_kind_witness :
    calculate_gains ([] ++ (⟨0, "DEPOSIT", 5, 5, 5⟩ : Tx) :: []) =
      calculate_gains ([] ++ []) :=
  c8_unknown_kind_skipped [] [] ⟨0, "DEPOSIT", 5, 5, 5⟩
    (by simp [TRANSACTION_BUY]) (by simp [TRANSACTION_SELL])

/-- C9: with positive transaction amounts (the validated-input contract),
every lot in the open queue after any number of processed transactions has
strictly positive remaining amount: no remaining amount ever goes negative,
and a lot drawn to exactly zero is removed. -/
theorem c9_lot_amounts_positive (txs : List Tx) (h : ∀ tx ∈ txs, 0 < tx.amount) :
    ∀ n : ℕ, ∀ lot ∈ lotsAfter (txs.take n), 0 < lot.amount := by
  intro n lot hlot
  rw [lotsAfter_eq_foldl] at hlot
  exact foldl_stepLots_pos (txs.take n) []
    (fun tx htx => h tx (List.take_subset n txs htx)) (by simp) lot hlot

/-- Witness for `c9_lot_amounts_positive`: the lot created by `w9txs`. -/
theorem c9_lot_amounts_positive_witness : 0 < (⟨1, 10, 0, 0⟩ : Lot).amount :=
  c9_lot_amounts_positive w9txs
    (by
      intro tx htx
      simp only [w9txs, List.mem_singleton] at htx
      subst htx
      norm_num)
    1 ⟨1, 10, 0, 0⟩
    (by norm_num [w9txs, lotsAfter, stepTx, TRANSACTION_BUY, List.take, List.foldl])

/-- C10: the interpreters threading the full store show the frame condition:
`calculate_gains` never writes its input `transactions` (its only mutable
state is `lots`/`realized`), and the `summarize_gains` loop never writes its
input `gains` and its result is a function of `gains` alone. -/
theorem c10_frame (txs : List Tx) (gains : List Realization) :
    (calculate_gains_full txs).transactions = txs ∧
    (calculate_gains_full txs).realized = calculate_gains txs ∧
    (summarize_run gains).1 = gains ∧
    (summarize_run gains).2 = gains.foldl summarizeStep (0, 0, 0, 0, 0) := by
  refine ⟨?_, ?_, ?_, ?_⟩
  · exact foldl_calcStep_transactions txs _
  · have h := (foldl_calcStep_run txs ⟨txs, [], []⟩).2
    simpa [calculate_gains_full, calculate_gains] using h
  · exact (foldl_summStep gains _).1
  · exact (foldl_summStep gains _).2

end BitcoinTax
